import Mathlib

/-!
Verification of the littlecalc RPN calculator (Python) against its
natural-language specification, via a shallow embedding in Lean 4.

The embedding follows the source files:
  * `littlecalc/core.py` — `Stack`, `ConsumingInputStream`,
    `Calculator.parse_input` (dispatch loop);
  * `littlecalc/modules/decimal.py` — the decimal module's operations
    (`store`, `recall`, `prec`, `add`, `div`, ..., `simple_arith_operation`,
    `compute_to_precision`, `_calc_pi`);
  * `littlecalc.py` — the historical single-file version, whose `Module`
    class (with `add_alias` / `do_operation`) is embedded as `OldModule`.

Modelling conventions:
  * Python `decimal.Decimal` values are modelled as exact rationals `ℚ`.
    Every numeric input appearing in a verified property is exactly
    representable and small enough that no context rounding occurs at the
    default precision of 28 significant digits, so exact arithmetic agrees
    with `decimal` arithmetic on all inputs that the theorems touch.
    `Infinity`/`NaN` literals and underscore grouping are outside the model.
  * Python dicts are modelled as association lists with insert-or-update
    semantics (`dictLookup` / `dictInsert`).
  * Exceptions are modelled by returning the mutated state together with
    `Option CalcError`; an escaping exception is a `some` error paired with
    the state exactly as the Python objects would be left by the raise.
  * The stack of `core.py` keeps its deque with the right end on top; here
    the list `values` keeps the top of the stack at the head.
-/

/-- Lookup in a Python-dict-like association list (first matching key). -/
def dictLookup {κ α : Type} [DecidableEq κ] (l : List (κ × α)) (k : κ) : Option α :=
  match l with
  | [] => none
  | (k', v) :: rest => if k' = k then some v else dictLookup rest k

/-- Insert-or-update in a Python-dict-like association list: an existing
binding of the key is replaced in place, otherwise the binding is appended. -/
def dictInsert {κ α : Type} [DecidableEq κ] (l : List (κ × α)) (k : κ) (v : α) :
    List (κ × α) :=
  match l with
  | [] => [(k, v)]
  | (k', v') :: rest =>
      if k' = k then (k', v) :: rest else (k', v') :: dictInsert rest k v

theorem dictLookup_dictInsert_self {κ α : Type} [DecidableEq κ]
    (l : List (κ × α)) (k : κ) (v : α) : dictLookup (dictInsert l k v) k = some v := by
  induction l with
  | nil => simp [dictInsert, dictLookup]
  | cons hd tl ih =>
      obtain ⟨k', v'⟩ := hd
      by_cases h : k' = k <;> simp [dictInsert, dictLookup, h, ih]

theorem dictLookup_dictInsert_other {κ α : Type} [DecidableEq κ]
    (l : List (κ × α)) (k k' : κ) (v : α) (h : k' ≠ k) :
    dictLookup (dictInsert l k' v) k = dictLookup l k := by
  induction l with
  | nil => simp [dictInsert, dictLookup, h]
  | cons hd tl ih =>
      obtain ⟨k₀, v₀⟩ := hd
      by_cases h0 : k₀ = k'
      · subst h0
        simp [dictInsert, dictLookup, h]
      · simp [dictInsert, dictLookup, h0, ih]

/-- Numeric values: `decimal.Decimal` modelled as exact rationals (see the
file header for the scope of this identification). -/
abbrev Val := ℚ

/-- Embedding of `Stack` from `littlecalc/core.py`: a deque of values plus
the `lastx` memory cell.  `values` keeps the top of the stack at the head
(the right end of the Python deque). -/
structure Stack where
  values : List Val
  lastx : Option Val
deriving DecidableEq, Repr

namespace Stack

/-- Embedding of `Stack.pop()` (the `count is None` branch):
`self.lastx = self.stack.pop()`.  On an empty deque the pop raises
`IndexError` before `lastx` is assigned, so nothing is mutated. -/
def popOne (s : Stack) : Option Val × Stack :=
  match s.values with
  | [] => (none, s)
  | v :: rest => (some v, ⟨rest, some v⟩)

/-- Embedding of the list comprehension
`[self.stack.pop() for _ in range(count)]`: values are popped one at a
time; when the deque runs dry an `IndexError` escapes mid-comprehension and
the values popped so far are lost. -/
def popSeq : Nat → List Val → Option (List Val) × List Val
  | 0, l => (some [], l)
  | _ + 1, [] => (none, [])
  | n + 1, v :: l =>
      match popSeq n l with
      | (r, l') => (r.map (v :: ·), l')

/-- Embedding of `Stack.pop(count)` (the `isinstance(count, int)` branch):
`self.lastx = self.stack[-1]` (raising `IndexError` on an empty stack, with
no mutation), then the popping comprehension. -/
def popN (s : Stack) (count : Nat) : Option (List Val) × Stack :=
  match s.values with
  | [] => (none, s)
  | top :: _ =>
      match popSeq count s.values with
      | (r, rest) => (r, ⟨rest, some top⟩)

/-- Embedding of `Stack.push(*values)`: each argument is appended in order,
so the last argument ends up on top. -/
def push (s : Stack) (vs : List Val) : Stack :=
  ⟨vs.reverse ++ s.values, s.lastx⟩

/-- Embedding of `Stack.peek()`. -/
def peek (s : Stack) : Option Val :=
  s.values.head?

/-- Embedding of `Stack.clear()`: `self.stack.clear()` — the deque is
emptied and `lastx` is not touched. -/
def clear (s : Stack) : Stack :=
  ⟨[], s.lastx⟩

/-- Embedding of `Stack.rotate(1)` (`deque.rotate(1)`: the top wraps to the
bottom's side; with top-at-head this moves the head behind the tail). -/
def rotateDown (s : Stack) : Stack :=
  match s.values with
  | [] => s
  | v :: rest => ⟨rest ++ [v], s.lastx⟩

/-- Embedding of `Stack.rotate(-1)` (`deque.rotate(-1)`: the bottom value
wraps around to the top). -/
def rotateUp (s : Stack) : Stack :=
  match s.values.getLast? with
  | none => s
  | some v => ⟨v :: s.values.dropLast, s.lastx⟩

end Stack

theorem popSeq_of_le : ∀ (n : Nat) (l : List Val), n ≤ l.length →
    Stack.popSeq n l = (some (l.take n), l.drop n) := by
  intro n
  induction n with
  | zero => intro l _; simp [Stack.popSeq]
  | succ m ih =>
      intro l hlen
      match l with
      | [] => simp at hlen
      | v :: rest =>
          have h' : m ≤ rest.length := by
            simpa [Nat.succ_le_succ_iff] using hlen
          simp [Stack.popSeq, ih rest h']

theorem popSeq_of_gt : ∀ (n : Nat) (l : List Val), l.length < n →
    Stack.popSeq n l = (none, []) := by
  intro n
  induction n with
  | zero => intro l h; simp at h
  | succ m ih =>
      intro l hlen
      match l with
      | [] => simp [Stack.popSeq]
      | v :: rest =>
          have h' : rest.length < m := by
            simpa [Nat.succ_lt_succ_iff] using hlen
          simp [Stack.popSeq, ih rest h']

/-- C1 (counterexample). Popping 2 values from a stack holding only the
single value 1 does not fail atomically: after the failing call the stack is
empty, not holding the value it held before, and `lastx` has been mutated. -/
theorem stack_popN_not_atomic :
    (Stack.popN ⟨[(1 : Val)], none⟩ 2).1 = none ∧
    (Stack.popN ⟨[(1 : Val)], none⟩ 2).2.values ≠ [(1 : Val)] ∧
    (Stack.popN ⟨[(1 : Val)], none⟩ 2).2 = ⟨[], some 1⟩ := by
  refine ⟨rfl, ?_, rfl⟩
  intro h
  simp [Stack.popN, Stack.popSeq] at h

/-- C1 (amended). `pop(n)` on a stack with fewer than `n` values fails with
a stack-underflow (`IndexError`), but not atomically: when the stack is
nonempty it is drained completely and `lastx` is set to the former top
(only the empty-stack case leaves the stack untouched).  For `n` not
exceeding the size of a nonempty stack, `pop(n)` returns the top `n` values
ordered topmost-first and sets `lastx` to the value that was on top before
any were removed. -/
theorem stack_popN_spec (s : Stack) (n : Nat) :
    (s.values = [] → s.popN n = (none, s)) ∧
    (∀ v rest, s.values = v :: rest → n ≤ s.values.length →
      s.popN n = (some (s.values.take n), ⟨s.values.drop n, some v⟩)) ∧
    (∀ v rest, s.values = v :: rest → s.values.length < n →
      s.popN n = (none, ⟨[], some v⟩)) := by
  obtain ⟨vals, lx⟩ := s
  refine ⟨?_, ?_, ?_⟩
  · intro h
    simp only at h
    simp [Stack.popN, h]
  · intro v rest hv hlen
    simp only at hv hlen
    subst hv
    simp [Stack.popN, popSeq_of_le n _ hlen]
  · intro v rest hv hlen
    simp only at hv hlen
    subst hv
    simp [Stack.popN, popSeq_of_gt n _ hlen]

/-- C1 (witness). Instantiation of `stack_popN_spec` on the stack `[2, 3]`
(2 on top) with `n = 1`. -/
theorem stack_popN_spec_witness :
    Stack.popN ⟨[(2 : Val), 3], none⟩ 1 = (some [2], ⟨[3], some 2⟩) := by
  have h := (stack_popN_spec ⟨[(2 : Val), 3], none⟩ 1).2.1 2 [3] rfl (by decide)
  simpa using h

/-- C9. `clear()` empties the stack and leaves `lastx` unchanged; in
particular after any `pop()` followed by `clear()`, `lastx` still holds the
value recorded by the pop. -/
theorem stack_clear_preserves_lastx (s : Stack) (v : Val) (rest : List Val)
    (h : s.values = v :: rest) :
    (∀ t : Stack, t.clear.values = [] ∧ t.clear.lastx = t.lastx) ∧
    ((s.popOne.2).clear).lastx = some v := by
  refine ⟨fun t => ⟨rfl, rfl⟩, ?_⟩
  simp [Stack.popOne, h, Stack.clear]

/-- C9 (witness). Instantiation of `stack_clear_preserves_lastx` on the
stack `[3]`. -/
theorem stack_clear_preserves_lastx_witness :
    ((Stack.popOne ⟨[(3 : Val)], none⟩).2.clear).lastx = some 3 :=
  (stack_clear_preserves_lastx ⟨[(3 : Val)], none⟩ 3 [] rfl).2

/-- Value of a digit string read left to right. -/
def digitsToNat (cs : List Char) : Nat :=
  cs.foldl (fun n c => 10 * n + (c.toNat - '0'.toNat)) 0

/-- Whether a character list is a nonempty run of decimal digits. -/
def isDigitRun (cs : List Char) : Bool :=
  !cs.isEmpty && cs.all Char.isDigit

/-- Split a character list at the first exponent indicator `e`/`E`;
returns the part before it and, when present, the part after it. -/
def splitOnExp : List Char → List Char × Option (List Char)
  | [] => ([], none)
  | c :: rest =>
      if c = 'e' ∨ c = 'E' then ([], some rest)
      else
        match splitOnExp rest with
        | (m, e) => (c :: m, e)

/-- Split a character list at the first decimal point. -/
def splitOnDot : List Char → List Char × Option (List Char)
  | [] => ([], none)
  | c :: rest =>
      if c = '.' then ([], some rest)
      else
        match splitOnDot rest with
        | (m, e) => (c :: m, e)

/-- Parse `[sign] digits` as an integer (the exponent part of a decimal
numeric string, and also Python's `int(str)` on whitespace-free tokens). -/
def parseSignedInt (cs : List Char) : Option ℤ :=
  match cs with
  | '+' :: rest => if isDigitRun rest then some (digitsToNat rest) else none
  | '-' :: rest => if isDigitRun rest then some (-(digitsToNat rest : ℤ)) else none
  | _ => if isDigitRun cs then some (digitsToNat cs) else none

/-- Parse the mantissa of a decimal numeric string:
`digits ['.' [digits]]` or `'.' digits`. -/
def parseMantissa (cs : List Char) : Option ℚ :=
  match splitOnDot cs with
  | (ip, none) => if isDigitRun ip then some (digitsToNat ip) else none
  | (ip, some fp) =>
      if ip.all Char.isDigit && fp.all Char.isDigit && (!ip.isEmpty || !fp.isEmpty) then
        some ((digitsToNat ip : ℚ) + (digitsToNat fp : ℚ) / (10 : ℚ) ^ fp.length)
      else none

/-- Embedding of `decimal.Decimal(word)` on finite numeric strings
(`[sign] (digits [. digits] | . digits) [ (e|E) [sign] digits ]`), the
converter behind `DecimalConverter.to_numeric` in
`littlecalc/modules/decimal.py`.  `Infinity`/`NaN` forms and underscore
grouping are outside the model (no such token occurs in any claim). -/
def parseDecimal (w : String) : Option ℚ :=
  let (sgn, body) :=
    match w.toList with
    | '+' :: rest => ((1 : ℚ), rest)
    | '-' :: rest => ((-1 : ℚ), rest)
    | cs => ((1 : ℚ), cs)
  match splitOnExp body with
  | (mant, expPart) => do
      let m ← parseMantissa mant
      let e ← match expPart with
              | none => pure (0 : ℤ)
              | some ecs => parseSignedInt ecs
      pure (sgn * m * (10 : ℚ) ^ e)

/-- Embedding of `DecimalConverter.is_numeric`: a word is numeric exactly
when `decimal.Decimal(word)` parses. -/
def isNumericWord (w : String) : Bool :=
  (parseDecimal w).isSome

/-- Errors that can escape an operation or the dispatch loop.  Each
constructor stands for a distinct Python exception class:
`stackUnderflow` for `IndexError` out of `Stack.pop`, `missingArgument`
for `CalculatorError('argument missing')`, `domainError` for
`decimal.DivisionByZero`/`decimal.InvalidOperation`, `keyError` for a
`KeyError` out of `calc.storage[src]`, `nameError` for the
`UnboundLocalError` in `prec`, `notNumeric` for `NotNumeric`,
`noSuchOperation` for `NoSuchOperation`, and `unmodelledOp` marks a
registered operation whose numeric body is outside this embedding (never
reached by any theorem below). -/
inductive CalcError where
  | stackUnderflow : CalcError
  | missingArgument : CalcError
  | domainError : CalcError
  | keyError : String → CalcError
  | nameError : CalcError
  | notNumeric : String → CalcError
  | noSuchOperation : String → CalcError
  | unmodelledOp : String → CalcError
deriving DecidableEq, Repr

/-- Whether the exception is a `CalculatorError` subclass (these are the
only ones the TUI main loop catches around `parse_input`). -/
def CalcError.isCalculatorError : CalcError → Bool
  | .missingArgument => true
  | .notNumeric _ => true
  | .noSuchOperation _ => true
  | _ => false

/-- Embedding of the mutable state owned by `Calculator` in
`littlecalc/core.py` (plus the ambient `decimal` context precision and the
lines printed so far): stack, variable storage, the consuming input
stream of the current line, `decimal.getcontext().prec`, and output. -/
structure CalcState where
  stack : Stack
  storage : List (String × Val)
  inputStream : List String
  precision : ℤ
  output : List String
deriving DecidableEq, Repr

/-- Fresh calculator state: empty stack and storage, `decimal`'s default
precision of 28 significant digits. -/
def initState : CalcState :=
  ⟨⟨[], none⟩, [], [], 28, []⟩

/-- Outcome of running one operation (or one dispatch step): the state as
the mutations left it, paired with the exception that escaped, if any. -/
abbrev StepResult := CalcState × Option CalcError

/-- Embedding of the `store` operation of `littlecalc/modules/decimal.py`:
pull the destination name from the input stream (raising
`CalculatorError('argument missing')` when the stream is exhausted), pop
the value (the stream token stays consumed if this underflows), store. -/
def storeOp (st : CalcState) : StepResult :=
  match st.inputStream with
  | [] => (st, some .missingArgument)
  | destination :: rest =>
      let st1 := { st with inputStream := rest }
      match st1.stack.popOne with
      | (none, s') => ({ st1 with stack := s' }, some .stackUnderflow)
      | (some value, s') =>
          ({ st1 with stack := s',
                      storage := dictInsert st1.storage destination value }, none)

/-- Embedding of the `recall` operation: pull the source name from the
input stream (`missingArgument` when exhausted), look it up in storage
(`KeyError` when absent), push the stored value. -/
def recallOp (st : CalcState) : StepResult :=
  match st.inputStream with
  | [] => (st, some .missingArgument)
  | src :: rest =>
      let st1 := { st with inputStream := rest }
      match dictLookup st1.storage src with
      | none => (st1, some (.keyError src))
      | some value => ({ st1 with stack := st1.stack.push [value] }, none)

/-- Embedding of the `clear` operation (`calc.stack.clear()`). -/
def clearOp (st : CalcState) : StepResult :=
  ({ st with stack := st.stack.clear }, none)

/-- Embedding of the `clearall` operation (stack and storage cleared). -/
def clearAllOp (st : CalcState) : StepResult :=
  ({ st with stack := st.stack.clear, storage := [] }, none)

/-- Embedding of the `xchy` operation: when at least two values are on the
stack, pop both and push them back exchanged; otherwise do nothing. -/
def xchyOp (st : CalcState) : StepResult :=
  if 2 ≤ st.stack.values.length then
    match st.stack.popN 2 with
    | (some (x :: y :: _), s') => ({ st with stack := s'.push [x, y] }, none)
    | (_, s') => ({ st with stack := s' }, some .stackUnderflow)
  else (st, none)

/-- Embedding of the `rolup` operation (`calc.stack.rotate(-1)`). -/
def rolupOp (st : CalcState) : StepResult :=
  ({ st with stack := st.stack.rotateUp }, none)

/-- Embedding of the `roldown` operation (`calc.stack.rotate(1)`). -/
def roldownOp (st : CalcState) : StepResult :=
  ({ st with stack := st.stack.rotateDown }, none)

/-- Embedding of the `push` operation: duplicate the top of the stack,
silently doing nothing on an empty stack (`except IndexError: pass`). -/
def pushOp (st : CalcState) : StepResult :=
  match st.stack.peek with
  | none => (st, none)
  | some v => ({ st with stack := st.stack.push [v] }, none)

/-- Embedding of the `pop` operation: drop the top of the stack, silently
doing nothing on an empty stack (`except IndexError: pass`). -/
def popOp (st : CalcState) : StepResult :=
  match st.stack.popOne with
  | (none, _) => (st, none)
  | (some _, s') => ({ st with stack := s' }, none)

/-- Embedding of the `lastx` operation: push `stack.lastx` unless it is
still `None`. -/
def lastxOp (st : CalcState) : StepResult :=
  match st.stack.lastx with
  | none => (st, none)
  | some v => ({ st with stack := st.stack.push [v] }, none)

/-- Embedding of the `prec` operation.  When the stream has a next token:
peek it, parse it with `int(...)`; on `ValueError` return silently without
consuming it, otherwise consume it and assign `context.prec = new_prec`.
When the stream is exhausted the `if` body is skipped entirely and the
trailing `context.prec = new_prec` raises `UnboundLocalError` (`new_prec`
was never bound), leaving the precision unchanged.  (Assigning a
non-positive precision would raise in Python; no claim exercises that.) -/
def precOp (st : CalcState) : StepResult :=
  match st.inputStream with
  | [] => (st, some .nameError)
  | w :: rest =>
      match parseSignedInt w.toList with
      | none => (st, none)
      | some n => ({ st with inputStream := rest, precision := n }, none)

/-- Embedding of the `prec?` operation: print the current precision. -/
def precShowOp (st : CalcState) : StepResult :=
  ({ st with output := st.output ++ ["current precision: " ++ toString st.precision] },
   none)

/-- Embedding of the wrapper produced by `simple_arith_operation(2)`:
`values = calc.stack.pop(2)` (an `IndexError` escapes with whatever partial
mutation `pop` performed), then `result = f(*values)` (a `decimal`
exception escapes with the operands already consumed), then
`calc.stack.push(result)`. -/
def arith2 (f : Val → Val → Except CalcError Val) (st : CalcState) : StepResult :=
  match st.stack.popN 2 with
  | (none, s') => ({ st with stack := s' }, some .stackUnderflow)
  | (some (x :: y :: _), s') =>
      match f x y with
      | .error e => ({ st with stack := s' }, some e)
      | .ok r => ({ st with stack := s'.push [r] }, none)
  | (some _, s') => ({ st with stack := s' }, some .stackUnderflow)

/-- Embedding of the wrapper produced by `simple_arith_operation(1)`. -/
def arith1 (f : Val → Except CalcError Val) (st : CalcState) : StepResult :=
  match st.stack.popN 1 with
  | (none, s') => ({ st with stack := s' }, some .stackUnderflow)
  | (some (x :: _), s') =>
      match f x with
      | .error e => ({ st with stack := s' }, some e)
      | .ok r => ({ st with stack := s'.push [r] }, none)
  | (some _, s') => ({ st with stack := s' }, some .stackUnderflow)

/-- Embedding of `add` (`return y + x`). -/
def addFn (x y : Val) : Except CalcError Val := .ok (y + x)

/-- Embedding of `sub` (`return y - x`). -/
def subFn (x y : Val) : Except CalcError Val := .ok (y - x)

/-- Embedding of `mul` (`return y * x`). -/
def mulFn (x y : Val) : Except CalcError Val := .ok (y * x)

/-- Embedding of `div` (`return y / x`): `decimal` division by a zero
divisor raises (`DivisionByZero`, or `InvalidOperation` for 0/0), both
modelled as `domainError`. -/
def divFn (x y : Val) : Except CalcError Val :=
  if x = 0 then .error .domainError else .ok (y / x)

/-- Embedding of `inv` (`return 1 / x`). -/
def invFn (x : Val) : Except CalcError Val :=
  if x = 0 then .error .domainError else .ok (1 / x)

/-- Embedding of `sqr` (`return x * x`). -/
def sqrFn (x : Val) : Except CalcError Val := .ok (x * x)

/-- Names of the transcendental operations of the decimal module whose
numeric bodies (square roots, logarithms, trigonometric series) are beyond
this rational-valued embedding.  They are registered names, so dispatch
still recognizes them; invoking one yields the `unmodelledOp` marker, and
no theorem below evaluates any of them. -/
def unmodelledNames : List String :=
  ["sqrt", "exp", "ln", "log10", "lg", "pow", "**", "^", "root", "log",
   "sin", "cos", "tan", "cot", "arctan", "arccot", "arcsin", "arccos"]

/-- Every operation name and alias registered by the chain of
`module.add_operation(...)` calls in `littlecalc/modules/decimal.py`. -/
def executableNames : List String :=
  ["store", "sto", "recall", "rcl", "clear", "clr", "clearall", "xchy",
   "rolup", "rlu", "roldown", "rld", "push", "pop", "lastx", "prec", "prec?",
   "add", "+", "sub", "-", "mul", "*", "div", "/", "inv", "sqr", "^2"]
  ++ unmodelledNames

/-- Embedding of `Calculator.is_executable`: whether some loaded module
claims the word as an operation name or alias (the decimal module is the
loaded module here; all the claims' operations live in it). -/
def isExecutable (w : String) : Bool :=
  executableNames.contains w

/-- Embedding of `Calculator.do_operation` restricted to the decimal
module: resolve the word (name or alias) to its operation and run it. -/
def execOp (w : String) (st : CalcState) : StepResult :=
  if w = "store" ∨ w = "sto" then storeOp st
  else if w = "recall" ∨ w = "rcl" then recallOp st
  else if w = "clear" ∨ w = "clr" then clearOp st
  else if w = "clearall" then clearAllOp st
  else if w = "xchy" then xchyOp st
  else if w = "rolup" ∨ w = "rlu" then rolupOp st
  else if w = "roldown" ∨ w = "rld" then roldownOp st
  else if w = "push" then pushOp st
  else if w = "pop" then popOp st
  else if w = "lastx" then lastxOp st
  else if w = "prec" then precOp st
  else if w = "prec?" then precShowOp st
  else if w = "add" ∨ w = "+" then arith2 addFn st
  else if w = "sub" ∨ w = "-" then arith2 subFn st
  else if w = "mul" ∨ w = "*" then arith2 mulFn st
  else if w = "div" ∨ w = "/" then arith2 divFn st
  else if w = "inv" then arith1 invFn st
  else if w = "sqr" ∨ w = "^2" then arith1 sqrFn st
  else if unmodelledNames.contains w then (st, some (.unmodelledOp w))
  else (st, some (.noSuchOperation w))

/-- Embedding of the token loop of `Calculator.parse_input`
(`littlecalc/core.py`): pop the next word from the shared consuming
stream; push it if a converter recognizes it; otherwise dispatch it as an
operation if a loaded module claims it (an exception escaping the
operation aborts the loop, exactly as the uncaught Python exception
does); otherwise print `UNKNOWN INPUT` and continue.  The fuel argument
only bounds the recursion; `parseInput` supplies the token count, which
always suffices because no operation adds tokens to the stream. -/
def runLoop : Nat → CalcState → StepResult
  | 0, st => (st, none)
  | fuel + 1, st =>
      match st.inputStream with
      | [] => (st, none)
      | word :: rest =>
          let st1 := { st with inputStream := rest }
          if isNumericWord word then
            runLoop fuel
              { st1 with stack := st1.stack.push [(parseDecimal word).getD 0] }
          else if isExecutable word then
            match execOp word st1 with
            | (st2, none) => runLoop fuel st2
            | (st2, some e) => (st2, some e)
          else
            runLoop fuel
              { st1 with output := st1.output ++ ["UNKNOWN INPUT: " ++ word] }

/-- Splitting helper for `tokenize`: accumulates the current word
(reversed) while scanning the characters. -/
def splitWsAux : List Char → List Char → List String
  | [], acc => if acc.isEmpty then [] else [String.mk acc.reverse]
  | c :: rest, acc =>
      if c.isWhitespace then
        (if acc.isEmpty then [] else [String.mk acc.reverse]) ++ splitWsAux rest []
      else splitWsAux rest (c :: acc)

/-- Embedding of Python `input_.split()`: split on runs of whitespace,
dropping empty words. -/
def tokenize (s : String) : List String :=
  splitWsAux s.toList []

/-- Embedding of `Calculator.parse_input(input_)`: split the line on
whitespace into the consuming input stream and run the token loop. -/
def parseInput (input : String) (st : CalcState) : StepResult :=
  let tokens := tokenize input
  runLoop tokens.length { st with inputStream := tokens }

set_option allowUnsafeReducibility true
attribute [local semireducible] Rat.add Rat.sub Rat.mul Rat.div Rat.neg Rat.inv

theorem execOp_add (st : CalcState) : execOp "add" st = arith2 addFn st := rfl

theorem isNumericWord_add : isNumericWord "add" = false := by decide

theorem isExecutable_add : isExecutable "add" = true := by decide

/-- C2 (counterexample). Evaluating the line `"add 5"` from a fresh state:
the stack underflow inside the `add` operation aborts the whole line — the
token `5` is never evaluated (it is still in the stream), nothing is
reported to the output channel, and the `IndexError` propagates out of
`parse_input` to its caller. -/
theorem parse_input_error_not_contained :
    parseInput "add 5" initState =
      (⟨⟨[], none⟩, [], ["5"], 28, []⟩, some .stackUnderflow) := by
  decide

theorem execOp_div (st : CalcState) : execOp "div" st = arith2 divFn st := rfl

theorem execOp_sto (st : CalcState) : execOp "sto" st = storeOp st := rfl

theorem isNumericWord_div : isNumericWord "div" = false := by decide

theorem isExecutable_div : isExecutable "div" = true := by decide

theorem isNumericWord_sto : isNumericWord "sto" = false := by decide

theorem isExecutable_sto : isExecutable "sto" = true := by decide

/-- C2 (amended). An operation-internal error aborts evaluation of the
entire remainder of the line, not just the faulting operation.  First
conjunct, for every dispatched operation and every escaping error:
whatever state/error pair the operation raise left behind is returned by
the loop unchanged — the exception propagates out of `parse_input`, the
remaining tokens are not evaluated, and nothing is appended to the
output.  The further conjuncts instantiate the three error families at
every state: a stack-underflow abort that partially drains a nonempty
stack (`add` with one value), a numeric-domain-error abort with the
operands already consumed (`div` on a zero divisor), and a
missing-argument abort (`sto` as last token of the line); only
`CalculatorError` subclasses are later caught by the TUI main loop, and
stack underflow (`IndexError`) is not one. -/
theorem parse_input_error_aborts_line :
    (∀ (fuel : Nat) (st : CalcState) (w : String) (rest : List String)
      (st2 : CalcState) (e : CalcError),
      st.inputStream = w :: rest → isNumericWord w = false →
      isExecutable w = true →
      execOp w { st with inputStream := rest } = (st2, some e) →
      runLoop (fuel + 1) st = (st2, some e)) ∧
    (∀ (fuel : Nat) (st : CalcState) (v : Val) (rest : List String),
      st.inputStream = "add" :: rest → st.stack.values = [v] →
      runLoop (fuel + 1) st =
        ({ st with inputStream := rest, stack := ⟨[], some v⟩ },
         some .stackUnderflow)) ∧
    (∀ (fuel : Nat) (st : CalcState) (y : Val) (more : List Val)
      (rest : List String),
      st.inputStream = "div" :: rest → st.stack.values = 0 :: y :: more →
      runLoop (fuel + 1) st =
        ({ st with inputStream := rest, stack := ⟨more, some 0⟩ },
         some .domainError)) ∧
    (∀ (fuel : Nat) (st : CalcState),
      st.inputStream = ["sto"] →
      runLoop (fuel + 1) st =
        ({ st with inputStream := [] }, some .missingArgument)) ∧
    CalcError.stackUnderflow.isCalculatorError = false := by
  refine ⟨?_, ?_, ?_, ?_, rfl⟩
  · intro fuel st w rest st2 e h1 h2 h3 h4
    obtain ⟨stk, sto, inp, prec, out⟩ := st
    simp only at h1
    subst h1
    simp only [runLoop, h2, h3, Bool.false_eq_true, if_false, if_true]
    rw [h4]
  · intro fuel st v rest h1 h2
    obtain ⟨⟨vals, lx⟩, sto, inp, prec, out⟩ := st
    simp only at h1 h2
    subst h1
    subst h2
    simp [runLoop, isNumericWord_add, isExecutable_add, execOp_add, arith2,
      Stack.popN, Stack.popSeq]
  · intro fuel st y more rest h1 h2
    obtain ⟨⟨vals, lx⟩, sto, inp, prec, out⟩ := st
    simp only at h1 h2
    subst h1
    subst h2
    simp [runLoop, isNumericWord_div, isExecutable_div, execOp_div, arith2,
      Stack.popN, Stack.popSeq, divFn]
  · intro fuel st h1
    obtain ⟨stk, sto, inp, prec, out⟩ := st
    simp only at h1
    subst h1
    simp [runLoop, isNumericWord_sto, isExecutable_sto, execOp_sto, storeOp]

/-- C2 (amended, witness). Instantiation of
`parse_input_error_aborts_line` on all four conjuncts: the generic abort
at an underflowing `add` on a fresh state, the partial drain of `add` on
the stack `[7]`, the domain-error abort of `div` on the stack `[0, 3]`,
and the missing-argument abort of a trailing `sto`. -/
theorem parse_input_error_aborts_line_witness :
    runLoop 1 { initState with inputStream := ["add"] } =
      (⟨⟨[], none⟩, [], [], 28, []⟩, some .stackUnderflow) ∧
    runLoop 1 { initState with inputStream := ["add"],
                               stack := ⟨[7], none⟩ } =
      ({ initState with inputStream := [], stack := ⟨[], some 7⟩ },
       some .stackUnderflow) ∧
    runLoop 1 { initState with inputStream := ["div"],
                               stack := ⟨[0, 3], none⟩ } =
      ({ initState with inputStream := [], stack := ⟨[], some 0⟩ },
       some .domainError) ∧
    runLoop 1 { initState with inputStream := ["sto"] } =
      ({ initState with inputStream := [] }, some .missingArgument) := by
  refine ⟨?_, ?_, ?_, ?_⟩
  · exact parse_input_error_aborts_line.1 0
      { initState with inputStream := ["add"] } "add" []
      ⟨⟨[], none⟩, [], [], 28, []⟩ .stackUnderflow rfl (by decide) (by decide)
      (by decide)
  · exact parse_input_error_aborts_line.2.1 0
      { initState with inputStream := ["add"], stack := ⟨[7], none⟩ } 7 []
      rfl rfl
  · exact parse_input_error_aborts_line.2.2.1 0
      { initState with inputStream := ["div"], stack := ⟨[0, 3], none⟩ }
      3 [] [] rfl rfl
  · exact parse_input_error_aborts_line.2.2.2.1 0
      { initState with inputStream := ["sto"] } rfl

/-- C4. Evaluating `"3 0 div"` from a fresh state fails with the
numeric-domain error (`decimal.DivisionByZero`), which is a different
exception from the dispatch-level `NoSuchOperation`, and afterwards the
stack is exactly empty: both operands were popped and nothing was pushed. -/
theorem div_by_zero_domain_error :
    (parseInput "3 0 div" initState).2 = some .domainError ∧
    (parseInput "3 0 div" initState).1.stack.values = [] ∧
    (∀ w, CalcError.domainError ≠ CalcError.noSuchOperation w) := by
  refine ⟨by decide, by decide, ?_⟩
  intro w h
  cases h

/-- C5. A token that no registered numeric converter recognizes and that
no loaded module claims as an operation name or alias is reported as
unknown on the output channel, and evaluation of the same line continues
with the next token: the stack and the storage are unchanged and no
exception arises from the unknown token. -/
theorem unknown_token_skipped (fuel : Nat) (st : CalcState) (t : String)
    (rest : List String) (h1 : st.inputStream = t :: rest)
    (h2 : isNumericWord t = false) (h3 : isExecutable t = false) :
    runLoop (fuel + 1) st =
      runLoop fuel
        { st with inputStream := rest,
                  output := st.output ++ ["UNKNOWN INPUT: " ++ t] } := by
  obtain ⟨stk, sto, inp, prec, out⟩ := st
  simp only at h1
  subst h1
  simp [runLoop, h2, h3]

/-- C5 (witness). Instantiation of `unknown_token_skipped` on the token
`"foo"` (not a decimal numeral, not a registered operation). -/
theorem unknown_token_skipped_witness :
    runLoop 1 { initState with inputStream := ["foo"] } =
      runLoop 0 { initState with inputStream := [],
                                 output := ["UNKNOWN INPUT: foo"] } := by
  have h := unknown_token_skipped 0 { initState with inputStream := ["foo"] }
    "foo" [] rfl (by decide) (by decide)
  simpa [initState] using h

/-- C6. Evaluating `"5 sto x 0 rcl x add"` from a fresh state succeeds and
leaves the stack holding exactly `[5]`: `sto` consumes the following token
`x` from the input stream as the variable name, `rcl` recalls the stored
value exactly, and `0 + 5` reproduces it. -/
theorem store_recall_roundtrip :
    (parseInput "5 sto x 0 rcl x add" initState).2 = none ∧
    (parseInput "5 sto x 0 rcl x add" initState).1.stack.values = [(5 : Val)] ∧
    dictLookup (parseInput "5 sto x 0 rcl x add" initState).1.storage "x" =
      some (5 : Val) := by
  refine ⟨by decide, by decide, by decide⟩

/-- C10. Invoking the `prec` operation when the input stream has no
further token always raises an error (`new_prec` is referenced before
assignment, an `UnboundLocalError`) and leaves the whole state — in
particular the ambient precision — unchanged. -/
theorem prec_missing_argument (st : CalcState) (h : st.inputStream = []) :
    precOp st = (st, some .nameError) ∧ (precOp st).1.precision = st.precision := by
  obtain ⟨stk, sto, inp, prec, out⟩ := st
  simp only at h
  subst h
  exact ⟨rfl, rfl⟩

/-- C10 (witness). Instantiation of `prec_missing_argument` on the fresh
state (empty input stream). -/
theorem prec_missing_argument_witness :
    precOp initState = (initState, some .nameError) :=
  (prec_missing_argument initState rfl).1

/-- Embedding of the `Module` class of the historical single-file
`littlecalc.py`: the keys of the `operations` dict (the operation bodies
are irrelevant to name resolution) and the `aliases` dict. -/
structure OldModule where
  operations : List String
  aliases : List (String × String)
deriving DecidableEq, Repr

/-- Embedding of the resolution loop in `Module.add_alias`:
`while operation_name in self.aliases: operation_name = self.aliases[operation_name]`.
The fuel bounds the loop; `none` models the infinite loop that the source
itself documents for cyclic aliases ("no protection against cyclic
aliases").  On any acyclic table, fuel `aliases.length` suffices, because
each step consumes a distinct key. -/
def resolveAliasTarget (aliases : List (String × String)) :
    Nat → String → Option String
  | 0, name => if (dictLookup aliases name).isSome then none else some name
  | fuel + 1, name =>
      match dictLookup aliases name with
      | none => some name
      | some next => resolveAliasTarget aliases fuel next

/-- Embedding of `Module.add_alias(alias, operation_name)`: the target is
chased through the current alias table, then `aliases[alias]` is set to
the result.  `none` models the documented divergence on cyclic tables. -/
def OldModule.add_alias (m : OldModule) (alias_ opName : String) :
    Option OldModule :=
  (resolveAliasTarget m.aliases (m.aliases.length + 1) opName).map
    (fun canonical => { m with aliases := dictInsert m.aliases alias_ canonical })

/-- Embedding of `Module.do_operation(operation)` from `littlecalc.py`:
one lookup in the alias table (not chased further), then the operations
dict; a `KeyError` becomes `NoSuchOperation`.  The result is the name of
the operation that gets invoked as `op(self, self.calculator)`. -/
def OldModule.do_operation (m : OldModule) (operation : String) :
    Except CalcError String :=
  match dictLookup m.aliases operation with
  | some alias_ =>
      if alias_ ∈ m.operations then .ok alias_
      else .error (.noSuchOperation operation)
  | none =>
      if operation ∈ m.operations then .ok operation
      else .error (.noSuchOperation operation)

/-- A module that defines a single operation `add` and no aliases yet. -/
def addOnlyModule : OldModule := ⟨["add"], []⟩

/-- C3 (counterexample). After `add_alias('x','y')` followed by
`add_alias('y','add')` on a module defining `add`, dispatching `x` does
not invoke `add`: `x` still maps to the intermediate name `y`, lookup
follows exactly one alias step, finds no operation `y`, and raises
`NoSuchOperation` — registration-time chaining never revisits aliases
registered earlier. -/
theorem alias_chain_stated_order_fails :
    addOnlyModule.add_alias "x" "y" = some ⟨["add"], [("x", "y")]⟩ ∧
    OldModule.add_alias ⟨["add"], [("x", "y")]⟩ "y" "add" =
      some ⟨["add"], [("x", "y"), ("y", "add")]⟩ ∧
    OldModule.do_operation ⟨["add"], [("x", "y"), ("y", "add")]⟩ "x" =
      .error (.noSuchOperation "x") := by
  refine ⟨by decide, by decide, by rfl⟩

/-- C3 (amended). Registration-time chaining resolves only the target of
the alias being registered, against the aliases already present: with the
registrations in the opposite order, `add_alias('y','add')` followed by
`add_alias('x','y')`, the second call resolves `y` to the canonical name
`add`, and dispatching `x` then invokes the operation `add` with a single
alias-table step. -/
theorem alias_chain_reverse_order_works (ops : List String) (h : "add" ∈ ops)
    (m1 m2 : OldModule)
    (h1 : OldModule.add_alias ⟨ops, []⟩ "y" "add" = some m1)
    (h2 : m1.add_alias "x" "y" = some m2) :
    m2.do_operation "x" = .ok "add" := by
  have e1 : m1 = ⟨ops, [("y", "add")]⟩ := by
    simp [OldModule.add_alias, resolveAliasTarget, dictLookup, dictInsert] at h1
    exact h1.symm
  subst e1
  have e2 : m2 = ⟨ops, [("y", "add"), ("x", "add")]⟩ := by
    simp [OldModule.add_alias, resolveAliasTarget, dictLookup, dictInsert] at h2
    exact h2.symm
  subst e2
  simp [OldModule.do_operation, dictLookup, h]

/-- C3 (amended, witness). Instantiation of
`alias_chain_reverse_order_works` on the module defining only `add`. -/
theorem alias_chain_reverse_order_works_witness :
    OldModule.do_operation ⟨["add"], [("y", "add"), ("x", "add")]⟩ "x" =
      .ok "add" :=
  alias_chain_reverse_order_works ["add"] (by decide) _ _ rfl rfl

/-- Embedding of `_calc_pi(cache={})` from `littlecalc/modules/decimal.py`.
The persistent mutable default-argument cache is threaded explicitly; the
guard-augmented Gauss–Legendre body (the `with decimal.localcontext()`
block) is abstracted as the parameter `compute`, the function from the
ambient precision at entry to the rounded value the body produces — only
the `prec in cache` / `cache[prec] = v` logic around it is at issue in the
caching claim.  The returned `Bool` records whether the body ran. -/
def calc_pi {V : Type} (compute : Nat → V) (prec : Nat)
    (cache : List (Nat × V)) : V × List (Nat × V) × Bool :=
  match dictLookup cache prec with
  | some v => (v, cache, false)
  | none =>
      let v := compute prec
      (v, dictInsert cache prec v, true)

/-- A session fragment: run `calc_pi` once at each precision in `ps`
(modelling the ambient precision being changed and restored arbitrarily
between computations), keeping only the evolving cache. -/
def calc_pi_session {V : Type} (compute : Nat → V) (ps : List Nat)
    (cache : List (Nat × V)) : List (Nat × V) :=
  ps.foldl (fun c q => (calc_pi compute q c).2.1) cache

theorem calc_pi_cache_stable {V : Type} (compute : Nat → V) (p q : Nat)
    (cache : List (Nat × V)) (v : V) (h : dictLookup cache p = some v) :
    dictLookup (calc_pi compute q cache).2.1 p = some v := by
  unfold calc_pi
  match hq : dictLookup cache q with
  | some w => simpa [hq]
  | none =>
      by_cases hpq : q = p
      · subst hpq
        simp [hq] at h
      · simpa [hq, dictLookup_dictInsert_other cache p q (compute q) hpq]

theorem calc_pi_session_stable {V : Type} (compute : Nat → V) (p : Nat)
    (ps : List Nat) (cache : List (Nat × V)) (v : V)
    (h : dictLookup cache p = some v) :
    dictLookup (calc_pi_session compute ps cache) p = some v := by
  induction ps generalizing cache with
  | nil => simpa [calc_pi_session]
  | cons q qs ih =>
      simpa [calc_pi_session] using
        ih _ (calc_pi_cache_stable compute p q cache v h)

/-- C7. Computing pi at a precision `p` not yet cached runs the body and
stores the result keyed by `p`; after any further pi computations at
arbitrary precisions (the ambient precision changed and restored at
will), computing again at `p` returns the identical cached value without
running the body. -/
theorem calc_pi_cached (V : Type) (compute : Nat → V) (p : Nat)
    (ps : List Nat) (cache : List (Nat × V))
    (h : dictLookup cache p = none) :
    (calc_pi compute p cache).2.2 = true ∧
    (calc_pi compute p cache).1 = compute p ∧
    calc_pi compute p
        (calc_pi_session compute ps (calc_pi compute p cache).2.1) =
      (compute p,
       calc_pi_session compute ps (calc_pi compute p cache).2.1, false) := by
  have hstep : calc_pi compute p cache =
      (compute p, dictInsert cache p (compute p), true) := by
    simp [calc_pi, h]
  have h1 : dictLookup (dictInsert cache p (compute p)) p = some (compute p) :=
    dictLookup_dictInsert_self cache p (compute p)
  have h2 := calc_pi_session_stable compute p ps
    (dictInsert cache p (compute p)) (compute p) h1
  refine ⟨by rw [hstep], by rw [hstep], ?_⟩
  rw [hstep]
  simp [calc_pi, h2]

/-- C7 (witness). Instantiation of `calc_pi_cached` with the identity
body, first computation at precision 10, an interleaved computation at
precision 20, starting from the empty cache. -/
theorem calc_pi_cached_witness :
    calc_pi (fun n => n) 10 (calc_pi_session (fun n => n) [20]
        (calc_pi (fun n => n) 10 []).2.1) =
      (10, calc_pi_session (fun n => n) [20] (calc_pi (fun n => n) 10 []).2.1,
       false) :=
  (calc_pi_cached Nat (fun n => n) 10 [20] [] rfl).2.2

/-- Embedding of `math.ceil` applied to a (nonnegative) precision value. -/
def ceilNat (q : ℚ) : Nat :=
  (Int.ceil q).toNat

/-- The working-precision recurrence of `compute_to_precision`, on traces
listed newest-first: each precision is the ceiling of the previous one
multiplied by the step factor (`next_prec = math.ceil(next_prec * step_factor)`). -/
inductive PrecChain (stepF : ℚ) : List Nat → Prop
  | single (p : Nat) : PrecChain stepF [p]
  | cons (p q : Nat) (l : List Nat) :
      p = ceilNat ((q : ℚ) * stepF) → PrecChain stepF (q :: l) →
      PrecChain stepF (p :: q :: l)

/-- Embedding of the `while last_result is None or result != last_result`
loop of the wrapper built by `compute_to_precision` in
`littlecalc/modules/decimal.py`, from its second round on.  `func p` is
the wrapped computation run with the working precision `p` in effect
(`with decimal.localcontext() as ctx: ctx.prec = next_prec`), `rnd` is the
rounding of the result back to the precision in effect at entry
(`result = +result`), and the comparison is between consecutive rounded
results.  `precsRev` instruments the run with the working precisions used
so far, newest first.  The fuel only bounds the loop: `none` models a run
that has not stabilized within `fuel` further rounds. -/
def ctp_loop {V : Type} [DecidableEq V] (func : Nat → V) (rnd : V → V)
    (stepF : ℚ) : Nat → Nat → V → List Nat → Option (V × List Nat)
  | 0, _, _, _ => none
  | fuel + 1, nextPrec, lastResult, precsRev =>
      let result := rnd (func nextPrec)
      if result = lastResult then some (result, nextPrec :: precsRev)
      else
        ctp_loop func rnd stepF fuel (ceilNat ((nextPrec : ℚ) * stepF))
          result (nextPrec :: precsRev)

/-- Embedding of the wrapper built by
`compute_to_precision(init_factor, step_factor)`: the first round runs at
working precision `ceil(max(current_prec, 1) * init_factor)` (its result
can never equal the initial `None`), every later round at the ceiling of
the previous round's working precision times `step_factor`, until two
consecutive rounds agree after both are rounded back to the entry
precision.  Returns the stable rounded result together with the
newest-first trace of working precisions (one entry per execution of the
wrapped function).  The decorator factory itself rejects
`init_factor <= 0` and `step_factor < 1` at decoration time; the factors
are modelled as exact rationals (Python holds them as binary floats, whose
sub-ulp deviation from the stated factors no claim depends on). -/
def compute_to_precision {V : Type} [DecidableEq V] (initF stepF : ℚ)
    (func : Nat → V) (rnd : V → V) (currentPrec fuel : Nat) :
    Option (V × List Nat) :=
  let p0 := ceilNat ((max currentPrec 1 : Nat) * initF)
  ctp_loop func rnd stepF fuel (ceilNat ((p0 : ℚ) * stepF)) (rnd (func p0)) [p0]

theorem ctp_loop_spec {V : Type} [DecidableEq V] (func : Nat → V)
    (rnd : V → V) (stepF : ℚ) :
    ∀ (fuel np : Nat) (last : V) (r : Nat) (rest : List Nat) (v : V)
      (out : List Nat),
      last = rnd (func r) →
      np = ceilNat ((r : ℚ) * stepF) →
      PrecChain stepF (r :: rest) →
      ctp_loop func rnd stepF fuel np last (r :: rest) = some (v, out) →
      PrecChain stepF out ∧ (r :: rest).length < out.length ∧
      out.getLast? = (r :: rest).getLast? ∧
      (∃ p q tail, out = p :: q :: tail ∧ v = rnd (func p) ∧ v = rnd (func q)) := by
  intro fuel
  induction fuel with
  | zero =>
      intro np last r rest v out _ _ _ hrun
      simp [ctp_loop] at hrun
  | succ f ih =>
      intro np last r rest v out hlast hnp hchain hrun
      simp only [ctp_loop] at hrun
      by_cases hstop : rnd (func np) = last
      · rw [if_pos hstop] at hrun
        have hp := Option.some.inj hrun
        injection hp with hv hout
        subst hv
        subst hout
        refine ⟨PrecChain.cons np r rest hnp hchain, by simp, ?_, ?_⟩
        · exact List.getLast?_cons_cons
        · exact ⟨np, r, rest, rfl, rfl, hstop.trans hlast⟩
      · rw [if_neg hstop] at hrun
        obtain ⟨c1, c2, c3, c4⟩ := ih (ceilNat ((np : ℚ) * stepF))
          (rnd (func np)) np (r :: rest) v out rfl rfl
          (PrecChain.cons np r rest hnp hchain) hrun
        refine ⟨c1, ?_, ?_, c4⟩
        · exact lt_trans (by simp) c2
        · rw [c3]
          exact List.getLast?_cons_cons

/-- C8. Whenever a call of a function wrapped by `compute_to_precision`
returns (trace listed newest-first): the wrapped computation ran at least
twice; the oldest working precision is `ceil(max(current_prec,1) * init_factor)`
and each later round's working precision is the ceiling of the previous
round's multiplied by the step factor; the loop stopped with the last two
rounds equal after both were rounded to the precision in effect at entry;
and the returned value is that stable rounded result. -/
theorem compute_to_precision_spec {V : Type} [DecidableEq V]
    (initF stepF : ℚ) (func : Nat → V) (rnd : V → V)
    (currentPrec fuel : Nat) (v : V) (out : List Nat)
    (h : compute_to_precision initF stepF func rnd currentPrec fuel =
      some (v, out)) :
    2 ≤ out.length ∧
    PrecChain stepF out ∧
    out.getLast? = some (ceilNat ((max currentPrec 1 : Nat) * initF)) ∧
    (∃ p q tail, out = p :: q :: tail ∧ v = rnd (func p) ∧ v = rnd (func q)) := by
  unfold compute_to_precision at h
  obtain ⟨c1, c2, c3, c4⟩ := ctp_loop_spec func rnd stepF fuel
    (ceilNat ((ceilNat ((max currentPrec 1 : Nat) * initF) : ℚ) * stepF))
    (rnd (func (ceilNat ((max currentPrec 1 : Nat) * initF))))
    (ceilNat ((max currentPrec 1 : Nat) * initF)) [] v out rfl rfl
    (PrecChain.single _) h
  refine ⟨?_, c1, ?_, c4⟩
  · simpa using Nat.succ_le_of_lt c2
  · simpa using c3

/-- C8 (witness). Instantiation of `compute_to_precision_spec` on the
constant-zero computation with `init_factor = 1`, `step_factor = 11/10`,
entry precision 5: the run stabilizes after two rounds at working
precisions 5 then 6. -/
theorem compute_to_precision_spec_witness :
    2 ≤ ([6, 5] : List Nat).length ∧
    PrecChain (11 / 10) [6, 5] ∧
    ([6, 5] : List Nat).getLast? = some (ceilNat ((max 5 1 : Nat) * 1)) ∧
    (∃ p q tail, ([6, 5] : List Nat) = p :: q :: tail ∧
      (0 : ℚ) = id ((fun _ => (0 : ℚ)) p) ∧
      (0 : ℚ) = id ((fun _ => (0 : ℚ)) q)) :=
  compute_to_precision_spec 1 (11 / 10) (fun _ => (0 : ℚ)) id 5 3 0 [6, 5]
    (by decide)
